import Mathlib

/-!
Verification of the hurl language front-end against its design document.

Part 1 embeds the JSONPath query evaluator
(`packages/hurl/src/jsonpath/eval.rs`): the runtime JSON value tree, the
`Selector`/`Predicate`/`Query` AST and their `eval` functions.

Part 2 embeds the grammar engine (`packages/hurl_core/src/parser/parsers.rs`):
the source reader, the two-tier (recoverable/fatal) error model, and the
`method`, `version` and duplicate-section-check rules.

Rust side conventions used throughout:
- `serde_json::Value` becomes the inductive `Json`; object entries are kept as
  an ordered association list (field lookup takes the first binding).
- Rust `Option`/`?` becomes Lean `Option` with `match`/`bind`.
- machine integers (`i64`, `usize`) become `Int`/`Nat` (no overflow is
  reachable in the embedded code paths).
- `f64` values inside JSON numbers are modelled as exact rationals (`Rat`);
  see `approx_eq` for the scope of that model, and `is_alphanumeric` for the
  scope of the character model.
-/

namespace Hurl

/-- Runtime JSON value tree (the shallow embedding of `serde_json::Value`).
Object entries are an ordered association list. -/
inductive Json where
  | null
  | bool (b : Bool)
  | num (q : Rat)
  | str (s : String)
  | arr (elements : List Json)
  | obj (entries : List (String × Json))

/-- `serde_json::Value::get` with a string index: field lookup on an object,
`none` on every other value shape. -/
def Json.get (root : Json) (key : String) : Option Json :=
  match root with
  | .obj entries => entries.lookup key
  | _ => none

/-- `serde_json::Value::get` with a `usize` index: element lookup on an array,
`none` on every other value shape. -/
def Json.getIdx (root : Json) (index : Nat) : Option Json :=
  match root with
  | .arr elements => elements[index]?
  | _ => none

/-- Shape test: is this value a JSON object? -/
def Json.isObj : Json → Bool
  | .obj _ => true
  | _ => false

/-- Shape test: is this value a JSON array? -/
def Json.isArr : Json → Bool
  | .arr _ => true
  | _ => false

/-- Shape test: is this value a JSON number? -/
def Json.isNum : Json → Bool
  | .num _ => true
  | _ => false

/-- Shape test: is this value a JSON string? -/
def Json.isStr : Json → Bool
  | .str _ => true
  | _ => false

/-- `JsonpathResult` from eval.rs: result of a "definite" path
(`SingleEntry`) or of an "indefinite" path (`Collection`). -/
inductive JsonpathResult where
  | SingleEntry (value : Json)
  | Collection (values : List Json)

/-- The custom decimal literal type of the jsonpath AST:
`Number { int: i64, decimal: u64 }`. -/
structure Number where
  int : Int
  decimal : Nat

/-- Modelled from the spec: `Number::to_f64` (jsonpath `ast.rs`, not under
`src/`) converts the integer part plus the 18 decimal digits held in
`decimal` to a numeric value; here the value is the exact rational
`int + decimal / 10^18`. -/
def Number.toRat (n : Number) : Rat :=
  mkRat (n.int * 1000000000000000000 + (n.decimal : Int)) 1000000000000000000

/-- `PredicateFunc` from the jsonpath AST. -/
inductive PredicateFunc where
  | KeyExist
  | EqualString (s : String)
  | Equal (num : Number)
  | GreaterThan (num : Number)
  | GreaterThanOrEqual (num : Number)
  | LessThan (num : Number)
  | LessThanOrEqual (num : Number)

/-- `Predicate` from the jsonpath AST: a key path and a comparison. -/
structure Predicate where
  key : List String
  func : PredicateFunc

/-- `extract_value` from eval.rs: resolve a key path by successive field
lookups, `none` as soon as a step is absent. -/
def extract_value (obj : Json) (key_path : List String) : Option Json :=
  match key_path with
  | [] => some obj
  | key :: rest =>
      match obj.get key with
      | none => none
      | some v => extract_value v rest

/-- The `approx_eq!(f64, v, num, ulps = 2)` comparison of eval.rs line 195.
A two-ulp floating-point tolerance has no counterpart over exact rationals;
it is modelled as exact equality. The two semantics agree whenever the
compared values are equal or more than two f64 ulps apart — in particular on
every integer-valued comparison — and disagree on distinct values within two
ulps; the numeric-equality theorems below therefore assert outcomes only at
values where the two agree (the integer literals of the claims), never the
general equality. -/
def approx_eq (a b : Rat) : Bool :=
  a == b

/-- `Predicate::eval` from eval.rs. The element must be an object and the key
path must resolve; then the resolved value is compared according to the
function, any shape mismatch giving `false`. Numbers are modelled as exact
rationals; see `approx_eq` for the scope of the numeric-equality model. -/
def Predicate.eval (p : Predicate) (elem : Json) : Bool :=
  match elem with
  | .obj _ =>
      match extract_value elem p.key with
      | some value =>
          match value, p.func with
          | _, .KeyExist => true
          | .num v, .Equal num => approx_eq v num.toRat
          | .num v, .GreaterThan num => num.toRat < v
          | .num v, .GreaterThanOrEqual num => num.toRat ≤ v
          | .num v, .LessThan num => v < num.toRat
          | .num v, .LessThanOrEqual num => v ≤ num.toRat
          | .str v, .EqualString s => v == s
          | _, _ => false
      | none => false
  | _ => false

/-- `Slice` from the jsonpath AST. The Rust field `end` is a Lean keyword and
is rendered as `stop`. -/
structure Slice where
  start : Option Int
  stop : Option Int

/-- `Selector` from the jsonpath AST. -/
inductive Selector where
  | NameChild (field : String)
  | Wildcard
  | ArrayWildcard
  | ArrayIndex (indexes : List Nat)
  | ArraySlice (slice : Slice)
  | RecursiveKey (key : String)
  | RecursiveWildcard
  | Filter (predicate : Predicate)

/-- The `continue` tests of the `ArraySlice` arm of `Selector::eval`, as one
keep-condition: element `i` of an array of length `len` is kept when it is not
skipped by the `start` test nor by the `end` test. -/
def sliceKeep (len : Nat) (slice : Slice) (i : Nat) : Bool :=
  !(match slice.start with
    | some n =>
        let n := if n < 0 then (len : Int) + n else n
        decide ((i : Int) < n)
    | none => false) &&
  !(match slice.stop with
    | some n =>
        let n := if n < 0 then (len : Int) + n else n
        decide ((i : Int) ≥ n)
    | none => false)

/-- The bound resolution the design document describes for slices: a
non-negative bound stands for itself, a negative bound for `len + n`. -/
def resolveBound (len : Nat) (n : Int) : Int :=
  if n < 0 then (len : Int) + n else n

mutual

/-- The `RecursiveKey` search of `Selector::eval`, written as three mutually
recursive functions (value / array elements / object entries) in place of the
Rust recursion through `Selector::eval` itself, which on `RecursiveKey`
always produces `Some(Collection ..)`. On an object the match at the current
node is pushed first, then every entry value (the matched one included) is
searched recursively; on an array every element is searched; every other
shape contributes nothing. -/
def recursiveKeySearch (key : String) (j : Json) : List Json :=
  match j with
  | .obj kvs =>
      (match kvs.lookup key with
       | some elem => [elem]
       | none => []) ++ recursiveKeySearchEntries key kvs
  | .arr values => recursiveKeySearchList key values
  | _ => []

/-- `RecursiveKey` search over the elements of an array, in order. -/
def recursiveKeySearchList (key : String) (values : List Json) : List Json :=
  match values with
  | [] => []
  | v :: rest => recursiveKeySearch key v ++ recursiveKeySearchList key rest

/-- `RecursiveKey` search over the entry values of an object, in order. -/
def recursiveKeySearchEntries (key : String) (kvs : List (String × Json)) :
    List Json :=
  match kvs with
  | [] => []
  | (_, v) :: rest =>
      recursiveKeySearch key v ++ recursiveKeySearchEntries key rest

end

mutual

/-- The `RecursiveWildcard` collection of `Selector::eval`: every member or
element value is pushed, then searched recursively, in order. -/
def recursiveWildcardSearch (j : Json) : List Json :=
  match j with
  | .obj kvs => recursiveWildcardSearchEntries kvs
  | .arr values => recursiveWildcardSearchList values
  | _ => []

/-- `RecursiveWildcard` over array elements: each element itself, then its
descendants. -/
def recursiveWildcardSearchList (values : List Json) : List Json :=
  match values with
  | [] => []
  | v :: rest => v :: (recursiveWildcardSearch v ++ recursiveWildcardSearchList rest)

/-- `RecursiveWildcard` over object entry values: each value itself, then its
descendants. -/
def recursiveWildcardSearchEntries (kvs : List (String × Json)) : List Json :=
  match kvs with
  | [] => []
  | (_, v) :: rest => v :: (recursiveWildcardSearch v ++ recursiveWildcardSearchEntries rest)

end

/-- `Selector::eval` from eval.rs. `ArrayIndex` keeps the Rust
`if indexes.len() == 1` split as a match on the singleton list. -/
def Selector.eval (s : Selector) (root : Json) : Option JsonpathResult :=
  match s with
  | .NameChild field => (root.get field).map .SingleEntry
  | .Wildcard | .ArrayWildcard =>
      some (.Collection
        (match root with
         | .arr values => values
         | .obj kvs => kvs.map Prod.snd
         | _ => []))
  | .ArraySlice slice =>
      some (.Collection
        (match root with
         | .arr values =>
             ((values.enum.filter fun p => sliceKeep values.length slice p.1).map
               Prod.snd)
         | _ => []))
  | .RecursiveKey key => some (.Collection (recursiveKeySearch key root))
  | .RecursiveWildcard => some (.Collection (recursiveWildcardSearch root))
  | .Filter predicate =>
      some (.Collection
        (match root with
         | .arr elements => elements.filter predicate.eval
         | _ => []))
  | .ArrayIndex indexes =>
      match indexes with
      | [index] => (root.getIdx index).map .SingleEntry
      | _ =>
          some (.Collection (indexes.filterMap fun index => root.getIdx index))

/-- How one per-element result is flattened into the running collection of
`Query::eval`: a `SingleEntry` contributes one element, a `Collection` all of
its elements. -/
def flattenOne : JsonpathResult → List Json
  | .SingleEntry v => [v]
  | .Collection vs => vs

/-- The `Collection` arm of the loop body of `Query::eval`: apply the
selector to every element in order, abort on the first `None`, flatten the
sub-results into one list. -/
def evalOnElems (s : Selector) (values : List Json) : Option (List Json) :=
  match values with
  | [] => some []
  | v :: rest =>
      match s.eval v with
      | none => none
      | some r =>
          match evalOnElems s rest with
          | none => none
          | some elems => some (flattenOne r ++ elems)

/-- One iteration of the selector loop of `Query::eval`: on a `SingleEntry`
the selector's own output replaces the result; on a `Collection` the selector
is mapped over the elements and the sub-results are flattened. -/
def evalStep (s : Selector) (result : JsonpathResult) : Option JsonpathResult :=
  match result with
  | .SingleEntry value => s.eval value
  | .Collection values => (evalOnElems s values).map .Collection

/-- The selector loop of `Query::eval`, folding `evalStep` left to right. -/
def evalSelectors (selectors : List Selector) (result : JsonpathResult) :
    Option JsonpathResult :=
  match selectors with
  | [] => some result
  | s :: rest =>
      match evalStep s result with
      | none => none
      | some r => evalSelectors rest r

/-- `Query` from the jsonpath AST: an ordered sequence of selectors. -/
structure Query where
  selectors : List Selector

/-- `Query::eval` from eval.rs: fold the selectors over
`SingleEntry(value)`. -/
def Query.eval (q : Query) (value : Json) : Option JsonpathResult :=
  evalSelectors q.selectors (.SingleEntry value)

/-- First book of the canonical bookstore document (eval.rs tests). -/
def json_first_book : Json :=
  .obj [("category", .str "reference"), ("author", .str "Nigel Rees"),
        ("title", .str "Sayings of the Century"), ("price", .num (895 / 100))]

/-- Second book of the canonical bookstore document. -/
def json_second_book : Json :=
  .obj [("category", .str "fiction"), ("author", .str "Evelyn Waugh"),
        ("title", .str "Sword of Honour"), ("price", .num (1299 / 100))]

/-- Third book of the canonical bookstore document. -/
def json_third_book : Json :=
  .obj [("category", .str "fiction"), ("author", .str "Herman Melville"),
        ("title", .str "Moby Dick"), ("isbn", .str "0-553-21311-3"),
        ("price", .num (899 / 100))]

/-- Fourth book of the canonical bookstore document. -/
def json_fourth_book : Json :=
  .obj [("category", .str "fiction"), ("author", .str "J. R. R. Tolkien"),
        ("title", .str "The Lord of the Rings"), ("isbn", .str "0-395-19395-8"),
        ("price", .num (2299 / 100))]

/-- The canonical bookstore document of the eval.rs tests. -/
def json_root : Json :=
  .obj [("store",
    .obj [("book",
      .arr [json_first_book, json_second_book, json_third_book,
            json_fourth_book]),
      ("bicycle", .arr [])])]

/-- A source position: (line, column), both 1-based. -/
structure Pos where
  line : Nat
  column : Nat
deriving DecidableEq, Repr

/-- The restorable part of the reader: cursor plus current position. -/
structure ReaderState where
  cursor : Nat
  pos : Pos
deriving DecidableEq, Repr

/-- Modelled from the spec: the Source Reader (`parser/reader.rs`, not under
`src/`) holds the full input text and a cursor with line/column accounting;
its state is snapshot-and-restorable. -/
structure Reader where
  buffer : List Char
  state : ReaderState
deriving DecidableEq, Repr

/-- A fresh reader over an input string: cursor 0, position (1, 1). -/
def Reader.new (s : String) : Reader :=
  ⟨s.data, ⟨0, ⟨1, 1⟩⟩⟩

/-- Modelled from the spec: consuming one character advances the cursor and
the position; a newline increments the line and resets the column. -/
def ReaderState.advance (st : ReaderState) (c : Char) : ReaderState :=
  { cursor := st.cursor + 1,
    pos := if c = '\n' then ⟨st.pos.line + 1, 1⟩
           else ⟨st.pos.line, st.pos.column + 1⟩ }

/-- Modelled from the spec: peek the current character without consuming. -/
def Reader.peek (r : Reader) : Option Char :=
  r.buffer[r.state.cursor]?

/-- Modelled from the spec: report end of input. -/
def Reader.is_eof (r : Reader) : Bool :=
  r.buffer.length ≤ r.state.cursor

/-- Modelled from the spec: `read_while` consumes characters while the
predicate holds and returns the consumed slice; its net effect is to take the
maximal satisfying prefix of the remaining buffer, advancing the position
over every consumed character. -/
def Reader.read_while (r : Reader) (p : Char → Bool) : String × Reader :=
  let chars := (r.buffer.drop r.state.cursor).takeWhile p
  (String.mk chars, { r with state := chars.foldl ReaderState.advance r.state })

/-- The error kinds reached by the embedded rules (`parser/error.rs`, with
`Expecting` standing for the literal-mismatch kind raised inside
`try_literal`). -/
inductive ParseError where
  | Method (name : String)
  | Version
  | Status
  | DuplicateSection
  | Expecting (value : String)
deriving DecidableEq, Repr

/-- `Error` from the parser: a position, the recoverable/fatal flag and the
error kind. -/
structure Error where
  pos : Pos
  recoverable : Bool
  inner : ParseError
deriving DecidableEq, Repr

/-- Character-by-character matching of a literal against the reader. -/
def matchLiteral (r : Reader) : List Char → Option Reader
  | [] => some r
  | c :: cs =>
      match r.peek with
      | some c' =>
          if c' = c then
            matchLiteral { r with state := r.state.advance c' } cs
          else none
      | none => none

/-- Modelled from the spec: `try_literal(text)` recoverably fails (reader
untouched) if the exact text is not next, and consumes it otherwise. -/
def try_literal (s : String) (r : Reader) : Except Error Reader :=
  match matchLiteral r s.data with
  | some r' => .ok r'
  | none => .error ⟨r.state.pos, true, .Expecting s⟩

/-- `Method` from the hurl_core AST. -/
inductive Method where
  | Get | Head | Post | Put | Delete | Connect | Options | Trace
  | Patch | Link | Unlink | Purge | Lock | Unlock | Propfind | View
deriving DecidableEq, Repr

/-- The fixed method table of `method` in parsers.rs, in source order. -/
def available_methods : List (String × Method) :=
  [("GET", .Get), ("HEAD", .Head), ("POST", .Post), ("PUT", .Put),
   ("DELETE", .Delete), ("CONNECT", .Connect), ("OPTIONS", .Options),
   ("TRACE", .Trace), ("PATCH", .Patch), ("LINK", .Link),
   ("UNLINK", .Unlink), ("PURGE", .Purge), ("LOCK", .Lock),
   ("UNLOCK", .Unlock), ("PROPFIND", .Propfind), ("VIEW", .View)]

/-- The token predicate of `method` (parsers.rs line 136): Rust
`char::is_alphanumeric`, a Unicode property. It is modelled by
`Char.isAlphanum`, which agrees with it exactly on the ASCII range
(`c.toNat < 128`: the alphanumerics there are `0-9A-Za-z` under both) and
undercounts non-ASCII alphanumerics such as `é`. The `method` theorems
therefore constrain every character that can decide a token boundary to the
ASCII range, where the model and the program provably tokenize alike. -/
def is_alphanumeric (c : Char) : Bool :=
  c.isAlphanum

/-- `method` from parsers.rs. Rules thread the `&mut Reader` explicitly: the
result pairs the parse outcome with the reader as the rule leaves it. At end
of input the failure is recoverable; otherwise the maximal alphanumeric run
(see `is_alphanumeric` for the scope of the character model) is read and
looked up in the table; on no match the reader state is rewound to the start
and the failure is fatal, naming the token at its start position. -/
def method (r : Reader) : Except Error Method × Reader :=
  if r.is_eof then
    (.error ⟨r.state.pos, true, .Method "<EOF>"⟩, r)
  else
    let start := r.state
    let (name, r₁) := r.read_while is_alphanumeric
    match available_methods.find? (fun p => p.1 == name) with
    | some (_, m) => (.ok m, r₁)
    | none => (.error ⟨start.pos, false, .Method name⟩, { r₁ with state := start })

/-- `VersionValue` from the hurl_core AST. -/
inductive VersionValue where
  | Version1
  | Version11
  | Version2
  | VersionAny
  | VersionAnyLegacy
deriving DecidableEq, Repr

/-- A start/end position pair. The Rust field `end` is a Lean keyword and is
rendered as `stop`. -/
structure SourceInfo where
  start : Pos
  stop : Pos
deriving DecidableEq, Repr

/-- `Version` from the hurl_core AST: a version value plus source info. -/
structure Version where
  value : VersionValue
  source_info : SourceInfo
deriving DecidableEq, Repr

/-- `version` from parsers.rs. Match literal "HTTP"; then branch on the
peeked character: `/` introduces the four fixed suffixes tried in source
order (the Rust loop over `available_version` is unrolled), a space yields
`VersionAny` without consuming, anything else (end of input included) is a
fatal `Version` error at the rule's start position. -/
def version (r : Reader) : Except Error Version × Reader :=
  let start := r.state
  match try_literal "HTTP" r with
  | .error e => (.error e, r)
  | .ok r₁ =>
      match r₁.peek with
      | some c =>
          if c = '/' then
            match try_literal "/1.0" r₁ with
            | .ok r₂ =>
                (.ok ⟨.Version1, ⟨start.pos, r₂.state.pos⟩⟩, r₂)
            | .error _ =>
            match try_literal "/1.1" r₁ with
            | .ok r₂ =>
                (.ok ⟨.Version11, ⟨start.pos, r₂.state.pos⟩⟩, r₂)
            | .error _ =>
            match try_literal "/2" r₁ with
            | .ok r₂ =>
                (.ok ⟨.Version2, ⟨start.pos, r₂.state.pos⟩⟩, r₂)
            | .error _ =>
            match try_literal "/*" r₁ with
            | .ok r₂ =>
                (.ok ⟨.VersionAnyLegacy, ⟨start.pos, r₂.state.pos⟩⟩, r₂)
            | .error _ =>
                (.error ⟨start.pos, false, .Version⟩, r₁)
          else if c = ' ' then
            (.ok ⟨.VersionAny, ⟨start.pos, r₁.state.pos⟩⟩, r₁)
          else
            (.error ⟨start.pos, false, .Version⟩, r₁)
      | none => (.error ⟨start.pos, false, .Version⟩, r₁)

/-- What the duplicate-section check of `request`/`response` reads from a
parsed section: its name (`section.name()`) and its source info. The section
bodies play no part in the check. -/
structure Section where
  name : String
  source_info : SourceInfo
deriving DecidableEq, Repr

/-- The duplicate-section loop of `request` (and `response`) in parsers.rs:
walk the sections in order against the names seen so far; the first section
whose name was already seen raises a fatal `DuplicateSection` error at that
section's start position; otherwise its name is appended and the walk goes
on. `none` means the check passes and the surrounding rule returns its
sections unchanged. -/
def check_duplicate_sections (sections : List Section) (section_names : List String) :
    Option Error :=
  match sections with
  | [] => none
  | s :: rest =>
      if section_names.contains s.name then
        some ⟨s.source_info.start, false, .DuplicateSection⟩
      else
        check_duplicate_sections rest (section_names ++ [s.name])

/-! Helper lemmas shared by the claim theorems. -/

/-- `getIdx` misses on every non-array value. -/
theorem getIdx_of_not_arr (root : Json) (h : root.isArr = false) (i : Nat) :
    root.getIdx i = none := by
  cases root <;> simp_all [Json.isArr, Json.getIdx]

/-- `get` misses on every non-object value. -/
theorem get_of_not_obj (root : Json) (h : root.isObj = false) (key : String) :
    root.get key = none := by
  cases root <;> simp_all [Json.isObj, Json.get]

/-! Claim theorems. -/

/-- Claim C9: in `Query::eval`, an empty `Collection` is absorbing: one loop
iteration on `Collection([])` yields `Collection([])` again whatever the
selector is (the selector is never applied to any value), so from an empty
collection the remaining chain always returns `Some(Collection([]))`. -/
theorem empty_collection_absorbing_c9 :
    (∀ s : Selector, evalStep s (.Collection []) = some (.Collection [])) ∧
    (∀ selectors : List Selector,
      evalSelectors selectors (.Collection []) = some (.Collection [])) := by
  constructor
  · intro s
    rfl
  · intro selectors
    induction selectors with
    | nil => rfl
    | cons s rest ih => simpa [evalSelectors, evalStep, evalOnElems] using ih

/-- Claim C10: the name-child selector on any value that is not a JSON
object returns no match (`None`), exactly as it does on an object lacking
the field; it never returns an empty collection there. -/
theorem name_child_non_object_c10 :
    (∀ (field : String) (root : Json), root.isObj = false →
      Selector.eval (.NameChild field) root = none) ∧
    (∀ (field : String) (kvs : List (String × Json)), kvs.lookup field = none →
      Selector.eval (.NameChild field) (.obj kvs) = none) := by
  constructor
  · intro field root h
    simp [Selector.eval, get_of_not_obj root h]
  · intro field kvs h
    simp [Selector.eval, Json.get, h]

/-- Witness for C10: a name-child lookup on a number aborts with `None`. -/
theorem name_child_non_object_c10_witness :
    Selector.eval (.NameChild "key") (.num 3) = none :=
  name_child_non_object_c10.1 "key" (.num 3) rfl

/-- Claim C5: the array-index selector with exactly one index is definite:
a present index returns `SingleEntry` of that element and an absent index
(out of range, or non-array input) returns `None`, aborting the chain; with
more than one index it is indefinite: it returns the `Collection` of the
values present at the requested indices in the order given, skipping absent
ones, and never aborts. -/
theorem array_index_c5 :
    (∀ (i : Nat) (xs : List Json) (x : Json), xs[i]? = some x →
      Selector.eval (.ArrayIndex [i]) (.arr xs) = some (.SingleEntry x)) ∧
    (∀ (i : Nat) (xs : List Json), xs.length ≤ i →
      Selector.eval (.ArrayIndex [i]) (.arr xs) = none) ∧
    (∀ (i : Nat) (root : Json), root.isArr = false →
      Selector.eval (.ArrayIndex [i]) root = none) ∧
    (∀ (indexes : List Nat) (root : Json), 1 < indexes.length →
      Selector.eval (.ArrayIndex indexes) root =
        some (.Collection (indexes.filterMap fun index => root.getIdx index))) := by
  refine ⟨?_, ?_, ?_, ?_⟩
  · intro i xs x h
    simp [Selector.eval, Json.getIdx, h]
  · intro i xs h
    simp [Selector.eval, Json.getIdx, List.getElem?_eq_none h]
  · intro i root h
    simp [Selector.eval, getIdx_of_not_arr root h]
  · intro indexes root h
    match indexes with
    | [] => simp at h
    | [i] => simp at h
    | i :: j :: rest => simp [Selector.eval]

/-- Witness for C5: present single index, out-of-range single index, and a
pair of indices on the five-element array of the eval.rs tests. -/
theorem array_index_c5_witness :
    Selector.eval (.ArrayIndex [2])
        (.arr [.str "first", .str "second", .str "third", .str "forth",
               .str "fifth"]) = some (.SingleEntry (.str "third")) ∧
    Selector.eval (.ArrayIndex [7]) (.arr [.num 1]) = none ∧
    Selector.eval (.ArrayIndex [5]) (.obj [("a", .num 1)]) = none ∧
    Selector.eval (.ArrayIndex [1, 2])
        (.arr [.num 0, .num 1, .num 2, .num 3]) =
      some (.Collection [.num 1, .num 2]) :=
  ⟨array_index_c5.1 2 _ (.str "third") rfl,
   array_index_c5.2.1 7 [.num 1] (by simp),
   array_index_c5.2.2.1 5 (.obj [("a", .num 1)]) rfl,
   array_index_c5.2.2.2 [1, 2] (.arr [.num 0, .num 1, .num 2, .num 3])
     (by simp)⟩

/-- Claim C1: `Query::eval` folds its selectors left to right from
`SingleEntry` of the input: an empty selector list returns `SingleEntry` of
the unmodified input; on a `SingleEntry` the selector's own output replaces
the result; on a `Collection` the selector is mapped over the elements and
each sub-result is flattened into the running collection (one element for a
`SingleEntry` sub-result, all elements for a `Collection` sub-result); once
the result is a `Collection` it stays a `Collection` to the end; and a
selector application returning no match on the single entry or on any
collection element makes the whole query return `None`. -/
theorem query_eval_fold_c1 :
    (∀ value : Json, Query.eval ⟨[]⟩ value = some (.SingleEntry value)) ∧
    (∀ (s : Selector) (rest : List Selector) (value : Json),
      evalSelectors (s :: rest) (.SingleEntry value) =
        (s.eval value).bind (evalSelectors rest)) ∧
    (∀ (s : Selector) (v : Json) (vs : List Json) (r : JsonpathResult)
        (ws : List Json),
      s.eval v = some r → evalOnElems s vs = some ws →
      evalStep s (.Collection (v :: vs)) =
        some (.Collection (flattenOne r ++ ws))) ∧
    (∀ (selectors : List Selector) (vs : List Json) (res : JsonpathResult),
      evalSelectors selectors (.Collection vs) = some res →
      ∃ ws, res = .Collection ws) ∧
    (∀ (s : Selector) (vs : List Json) (v : Json),
      v ∈ vs → s.eval v = none → evalStep s (.Collection vs) = none) ∧
    (∀ (s : Selector) (v : Json),
      s.eval v = none → evalStep s (.SingleEntry v) = none) := by
  refine ⟨?_, ?_, ?_, ?_, ?_, ?_⟩
  · intro value
    rfl
  · intro s rest value
    cases h : s.eval value <;> simp [evalSelectors, evalStep, h]
  · intro s v vs r ws h₁ h₂
    simp [evalStep, evalOnElems, h₁, h₂]
  · intro selectors
    induction selectors with
    | nil =>
        intro vs res h
        exact ⟨vs, by simpa [evalSelectors] using h.symm⟩
    | cons s rest ih =>
        intro vs res h
        simp only [evalSelectors, evalStep] at h
        cases helems : evalOnElems s vs with
        | none => simp [helems] at h
        | some ws => exact ih ws res (by simpa [helems] using h)
  · intro s vs v hmem heval
    induction vs with
    | nil => cases hmem
    | cons w rest ih =>
        rcases List.mem_cons.mp hmem with rfl | hmem'
        · simp [evalStep, evalOnElems, heval]
        · have hrest : evalOnElems s rest = none := by
            have h₂ := ih hmem'
            simp only [evalStep] at h₂
            cases hcase : evalOnElems s rest with
            | none => rfl
            | some ws => rw [hcase] at h₂; simp at h₂
          cases hw : s.eval w <;>
            simp [evalStep, evalOnElems, hw, hrest]
  · intro s v h
    simp [evalStep, h]

/-- Witness for C1: a name-child miss on one collection element aborts the
step, and a chain started on a collection ends collection-shaped. -/
theorem query_eval_fold_c1_witness :
    evalStep (Selector.NameChild "a") (.Collection [.num 1]) = none ∧
    ∃ ws, JsonpathResult.Collection [Json.num 1] = .Collection ws :=
  ⟨query_eval_fold_c1.2.2.2.2.1 (Selector.NameChild "a") [.num 1] (.num 1)
      (List.mem_singleton.mpr rfl) rfl,
   query_eval_fold_c1.2.2.2.1 [] [Json.num 1] (.Collection [Json.num 1]) rfl⟩

/-- Claim C6: `Predicate::eval` is false on every non-object element and on
any element whose key path does not resolve; once resolved, key-existence
is true, string-equality compares a resolved string exactly and requires a
resolved string, numeric comparison requires a resolved number (so any
shape mismatch between resolved value and predicate kind is false, not an
error); in particular an object with field value `1` equals the numeric
literal `1` but the string `"1"` does not, and `1` is less than the literal
`10`. Numeric-comparison outcomes are asserted only at the claim's integer
instances, where the exact-rational model of the program's two-ulp `f64`
comparison coincides with it (see `approx_eq`). -/
theorem predicate_eval_c6 :
    (∀ (p : Predicate) (elem : Json), elem.isObj = false →
      p.eval elem = false) ∧
    (∀ (p : Predicate) (elem : Json), extract_value elem p.key = none →
      p.eval elem = false) ∧
    (∀ (key_path : List String) (kvs : List (String × Json)) (v : Json),
      extract_value (.obj kvs) key_path = some v →
      Predicate.eval ⟨key_path, .KeyExist⟩ (.obj kvs) = true) ∧
    (∀ (key_path : List String) (kvs : List (String × Json)) (v : String)
        (s : String),
      extract_value (.obj kvs) key_path = some (.str v) →
      Predicate.eval ⟨key_path, .EqualString s⟩ (.obj kvs) = (v == s)) ∧
    (∀ (key_path : List String) (kvs : List (String × Json)) (v : Json)
        (s : String),
      extract_value (.obj kvs) key_path = some v → v.isStr = false →
      Predicate.eval ⟨key_path, .EqualString s⟩ (.obj kvs) = false) ∧
    (∀ (key_path : List String) (kvs : List (String × Json)) (v : Json)
        (num : Number),
      extract_value (.obj kvs) key_path = some v → v.isNum = false →
      Predicate.eval ⟨key_path, .Equal num⟩ (.obj kvs) = false) ∧
    (Predicate.eval ⟨["key"], .Equal ⟨1, 0⟩⟩ (.obj [("key", .num 1)]) = true) ∧
    (Predicate.eval ⟨["key"], .Equal ⟨1, 0⟩⟩ (.obj [("key", .str "1")]) =
      false) ∧
    (Predicate.eval ⟨["key"], .LessThan ⟨10, 0⟩⟩ (.obj [("key", .num 1)]) =
      true) := by
  refine ⟨?_, ?_, ?_, ?_, ?_, ?_, ?_, ?_, ?_⟩
  · intro p elem h
    cases elem <;> simp_all [Predicate.eval, Json.isObj]
  · intro p elem h
    cases elem <;> simp_all [Predicate.eval]
  · intro key_path kvs v h
    cases v <;> simp [Predicate.eval, h]
  · intro key_path kvs v s h
    simp [Predicate.eval, h]
  · intro key_path kvs v s h hv
    cases v <;> simp_all [Predicate.eval, Json.isStr]
  · intro key_path kvs v num h hv
    cases v <;> simp_all [Predicate.eval, Json.isNum]
  · rfl
  · rfl
  · rfl

/-- Witness for C6: the conditional parts of C6 applied to one-field
objects, covering a resolved string against a numeric literal and a
resolved boolean against a string literal. -/
theorem predicate_eval_c6_witness :
    Predicate.eval ⟨["unknown"], .KeyExist⟩ (.obj [("key", .num 1)]) = false ∧
    Predicate.eval ⟨["key"], .KeyExist⟩ (.obj [("key", .str "value")]) = true ∧
    Predicate.eval ⟨["key"], .EqualString "value"⟩
        (.obj [("key", .str "value")]) = ("value" == "value") ∧
    Predicate.eval ⟨["key"], .EqualString "true"⟩
        (.obj [("key", .bool true)]) = false ∧
    Predicate.eval ⟨["key"], .Equal ⟨3, 0⟩⟩ (.obj [("key", .str "3")]) =
      false ∧
    Predicate.eval ⟨["key"], .KeyExist⟩ (.str "key") = false :=
  ⟨predicate_eval_c6.2.1 ⟨["unknown"], .KeyExist⟩ (.obj [("key", .num 1)]) rfl,
   predicate_eval_c6.2.2.1 ["key"] [("key", .str "value")] (.str "value") rfl,
   predicate_eval_c6.2.2.2.1 ["key"] [("key", .str "value")] "value" "value"
     rfl,
   predicate_eval_c6.2.2.2.2.1 ["key"] [("key", .bool true)] (.bool true)
     "true" rfl rfl,
   predicate_eval_c6.2.2.2.2.2.1 ["key"] [("key", .str "3")] (.str "3")
     ⟨3, 0⟩ rfl rfl,
   predicate_eval_c6.1 ⟨["key"], .KeyExist⟩ (.str "key") rfl⟩

/-- Claim C7: the recursive-key selector always returns a `Collection`
(never aborts): the match at the current object is collected before its
entry values (the matched value included) are searched for further nested
matches, arrays are searched element by element, and on the canonical
bookstore document `..author` yields the four author strings in document
order. -/
theorem recursive_key_c7 :
    (∀ (key : String) (root : Json),
      Selector.eval (.RecursiveKey key) root =
        some (.Collection (recursiveKeySearch key root))) ∧
    (∀ (key : String) (kvs : List (String × Json)) (v : Json),
      kvs.lookup key = some v →
      recursiveKeySearch key (.obj kvs) =
        v :: recursiveKeySearchEntries key kvs) ∧
    (recursiveKeySearch "a" (.obj [("a", .obj [("a", .num 2)])]) =
      [.obj [("a", .num 2)], .num 2]) ∧
    (Query.eval ⟨[.RecursiveKey "author"]⟩ json_root =
      some (.Collection [.str "Nigel Rees", .str "Evelyn Waugh",
        .str "Herman Melville", .str "J. R. R. Tolkien"])) := by
  refine ⟨?_, ?_, ?_, ?_⟩
  · intro key root
    rfl
  · intro key kvs v h
    rw [recursiveKeySearch, h]
    rfl
  · rfl
  · rfl

/-- Witness for C7: the match at the node comes first on a concrete
one-entry object. -/
theorem recursive_key_c7_witness :
    recursiveKeySearch "k" (.obj [("k", .null)]) =
      .null :: recursiveKeySearchEntries "k" [("k", .null)] :=
  recursive_key_c7.2.1 "k" [("k", .null)] .null rfl

/-- Pointwise form of the two skip tests of the array-slice evaluator: an
index is kept exactly when it is at or above the resolved lower bound and
strictly below the resolved upper bound, an absent bound constraining
nothing. -/
theorem sliceKeep_eq (len : Nat) (slice : Slice) (i : Nat) :
    sliceKeep len slice i =
      ((slice.start.all fun n => decide (resolveBound len n ≤ (i : Int))) &&
       (slice.stop.all fun n => decide ((i : Int) < resolveBound len n))) := by
  obtain ⟨s, e⟩ := slice
  cases s <;> cases e <;>
    simp only [sliceKeep, resolveBound, Option.all, Bool.not_eq_true'] <;>
    (try split_ifs) <;>
    simp [← decide_not, decide_eq_decide]

/-- Claim C8: on an array of length `len` the array-slice selector returns
the `Collection` of exactly the elements whose index `i` satisfies
`i ≥ start'` and `i < end'`, where a bound resolves to itself when
non-negative, to `len + bound` when negative, and is dropped when absent;
order is preserved; on any non-array value it returns an empty `Collection`
and never aborts. -/
theorem array_slice_c8 :
    (∀ (slice : Slice) (xs : List Json),
      Selector.eval (.ArraySlice slice) (.arr xs) =
        some (.Collection ((xs.enum.filter fun p =>
          (slice.start.all fun n =>
            decide (resolveBound xs.length n ≤ (p.1 : Int))) &&
          (slice.stop.all fun n =>
            decide ((p.1 : Int) < resolveBound xs.length n))).map Prod.snd))) ∧
    (∀ (slice : Slice) (root : Json), root.isArr = false →
      Selector.eval (.ArraySlice slice) root = some (.Collection [])) ∧
    (Selector.eval (.ArraySlice ⟨none, some 2⟩)
        (.arr [.num 1, .num 2, .num 3, .num 4]) =
      some (.Collection [.num 1, .num 2])) ∧
    (Selector.eval (.ArraySlice ⟨some (-2), none⟩)
        (.arr [.num 1, .num 2, .num 3, .num 4]) =
      some (.Collection [.num 3, .num 4])) := by
  refine ⟨?_, ?_, ?_, ?_⟩
  · intro slice xs
    have : (fun p : Nat × Json => sliceKeep xs.length slice p.1) = fun p =>
        ((slice.start.all fun n =>
          decide (resolveBound xs.length n ≤ (p.1 : Int))) &&
         (slice.stop.all fun n =>
          decide ((p.1 : Int) < resolveBound xs.length n))) := by
      funext p
      exact sliceKeep_eq xs.length slice p.1
    simp only [Selector.eval, this]
  · intro slice root h
    cases root <;> simp_all [Selector.eval, Json.isArr]
  · rfl
  · rfl

/-- Witness for C8: a slice of a non-array value is an empty collection. -/
theorem array_slice_c8_witness :
    Selector.eval (.ArraySlice ⟨some 0, some 5⟩) (.num 7) =
      some (.Collection []) :=
  array_slice_c8.2.1 ⟨some 0, some 5⟩ (.num 7) rfl

/-- The maximal satisfying prefix of `run ++ suf` is `run` itself when every
character of `run` satisfies the predicate and the first character of `suf`
(if any) does not. -/
theorem takeWhile_append_eq (p : Char → Bool) (run suf : List Char)
    (hrun : ∀ c ∈ run, p c = true)
    (hsuf : ∀ c, suf.head? = some c → p c = false) :
    (run ++ suf).takeWhile p = run := by
  induction run with
  | nil =>
      cases suf with
      | nil => rfl
      | cons c t => simp [List.takeWhile_cons, hsuf c rfl]
  | cons c t ih =>
      simp [List.takeWhile_cons, hrun c (by simp),
        ih fun x hx => hrun x (by simp [hx])]

/-- Consuming a run without newlines advances the cursor and the column by
its length and leaves the line unchanged. -/
theorem foldl_advance_no_newline (l : List Char) (st : ReaderState)
    (h : ∀ c ∈ l, ¬ c = '\n') :
    l.foldl ReaderState.advance st =
      ⟨st.cursor + l.length, ⟨st.pos.line, st.pos.column + l.length⟩⟩ := by
  induction l generalizing st with
  | nil => simp
  | cons c t ih =>
      have hc : ¬ c = '\n' := h c (by simp)
      rw [List.foldl_cons, ih _ fun x hx => h x (by simp [hx])]
      simp [ReaderState.advance, hc, ReaderState.mk.injEq, Pos.mk.injEq]
      omega

/-- `read_while` on a buffer made of a satisfying run followed by a
non-satisfying (or empty) remainder returns exactly the run and advances
past it. -/
theorem read_while_run (tok : String) (rest : List Char) (p : Char → Bool)
    (halnum : ∀ c ∈ tok.data, p c = true)
    (hnl : ∀ c ∈ tok.data, ¬ c = '\n')
    (hrest : ∀ c, rest.head? = some c → p c = false) :
    Reader.read_while ⟨tok.data ++ rest, ⟨0, ⟨1, 1⟩⟩⟩ p =
      (tok, ⟨tok.data ++ rest, ⟨tok.length, ⟨1, 1 + tok.length⟩⟩⟩) := by
  simp only [Reader.read_while, List.drop_zero,
    takeWhile_append_eq p tok.data rest halnum hrest,
    foldl_advance_no_newline tok.data _ hnl, Nat.zero_add]
  rfl

/-- In an association list whose keys are distinct, `find?` on the key of a
member returns that member. -/
theorem find_eq_of_mem {α β : Type} [BEq α] [LawfulBEq α]
    (l : List (α × β)) (a : α) (b : β)
    (hnd : (l.map Prod.fst).Nodup) (hmem : (a, b) ∈ l) :
    l.find? (fun p => p.1 == a) = some (a, b) := by
  induction l with
  | nil => cases hmem
  | cons hd tl ih =>
      simp only [List.map_cons, List.nodup_cons] at hnd
      rcases List.mem_cons.mp hmem with rfl | hmem'
      · exact List.find?_cons_of_pos _ (by simp)
      · have hne : hd.1 ≠ a := by
          intro h
          apply hnd.1
          rw [h]
          exact List.mem_map_of_mem Prod.fst hmem'
        rw [List.find?_cons_of_neg _ (by simp [hne])]
        exact ih hnd.2 hmem'

/-- On a valid method token followed by a non-alphanumeric remainder,
`method` succeeds with the matching variant, the reader advanced exactly
past the token. -/
theorem method_token_helper (tok : String) (m : Method) (rest : List Char)
    (halnum : ∀ c ∈ tok.data, is_alphanumeric c = true)
    (hnl : ∀ c ∈ tok.data, ¬ c = '\n')
    (hne : tok.data ≠ [])
    (hfind : available_methods.find? (fun p => p.1 == tok) = some (tok, m))
    (hrest : ∀ c, rest.head? = some c → is_alphanumeric c = false) :
    method ⟨tok.data ++ rest, ⟨0, ⟨1, 1⟩⟩⟩ =
      (.ok m, ⟨tok.data ++ rest, ⟨tok.length, ⟨1, 1 + tok.length⟩⟩⟩) := by
  have heof : Reader.is_eof ⟨tok.data ++ rest, ⟨0, ⟨1, 1⟩⟩⟩ = false := by
    cases htok : tok.data with
    | nil => exact absurd htok hne
    | cons c t => simp [Reader.is_eof, htok]
  simp only [method, heof, Bool.false_eq_true, if_false,
    read_while_run tok rest is_alphanumeric halnum hnl hrest, hfind]

/-- Claim C3: the method parser fails recoverably at the current position at
end of input (column 1 on empty input); otherwise it reads the maximal
alphanumeric run; each of the sixteen recognized tokens parses to its
variant with the reader advanced exactly past the token; any other token
leaves the reader rewound to the token's start and raises a fatal error
naming the token at that start position. The tokenizing statements are
restricted to inputs whose characters lie in the ASCII range, where the
modelled alphanumeric predicate coincides with Rust's Unicode one (see
`is_alphanumeric`): the character after a recognized token, and every
buffer character in the unrecognized-token case, must be ASCII. -/
theorem method_c3 :
    (∀ r : Reader, r.is_eof = true →
      method r = (.error ⟨r.state.pos, true, .Method "<EOF>"⟩, r)) ∧
    (method (Reader.new "") =
      (.error ⟨⟨1, 1⟩, true, .Method "<EOF>"⟩, Reader.new "")) ∧
    (∀ (tok : String) (m : Method) (rest : List Char),
      (tok, m) ∈ available_methods →
      (∀ c, rest.head? = some c →
        c.toNat < 128 ∧ is_alphanumeric c = false) →
      method ⟨tok.data ++ rest, ⟨0, ⟨1, 1⟩⟩⟩ =
        (.ok m, ⟨tok.data ++ rest, ⟨tok.length, ⟨1, 1 + tok.length⟩⟩⟩)) ∧
    (∀ r : Reader, (∀ c ∈ r.buffer, c.toNat < 128) → r.is_eof = false →
      available_methods.find?
        (fun p => p.1 == (r.read_while is_alphanumeric).1) = none →
      method r = (.error ⟨r.state.pos, false,
        .Method (r.read_while is_alphanumeric).1⟩, r)) ∧
    (method (Reader.new "xxx ") =
      (.error ⟨⟨1, 1⟩, false, .Method "xxx"⟩, Reader.new "xxx ")) := by
  refine ⟨?_, ?_, ?_, ?_, ?_⟩
  · intro r h
    simp [method, h]
  · rfl
  · intro tok m rest hmem hrest
    have hprops : ∀ p ∈ available_methods,
        (∀ c ∈ p.1.data, is_alphanumeric c = true) ∧
        (∀ c ∈ p.1.data, ¬ c = '\n') ∧ p.1.data ≠ [] := by decide
    obtain ⟨halnum, hnl, hne⟩ := hprops (tok, m) hmem
    exact method_token_helper tok m rest halnum hnl hne
      (find_eq_of_mem available_methods tok m (by decide) hmem)
      fun c h => (hrest c h).2
  · intro r _ heof hfind
    cases hpair : r.read_while is_alphanumeric with
    | mk name r₁ =>
        rw [hpair] at hfind
        have hbuf : r₁.buffer = r.buffer := by
          rw [show r₁ = (r.read_while is_alphanumeric).2 from by rw [hpair]]
          rfl
        simp only [method, heof, Bool.false_eq_true, if_false, hpair, hfind]
        rw [show ({ buffer := r₁.buffer, state := r.state } : Reader) = r from
          by rw [hbuf]]
  · rfl

/-- Witness for C3: `method` applied through the claim theorem at end of
input, at the token `GET` followed by an ASCII space, and at the
unrecognized all-ASCII token `xyz`. -/
theorem method_c3_witness :
    method (⟨"HT".data, ⟨9, ⟨2, 4⟩⟩⟩ : Reader) =
      (.error ⟨⟨2, 4⟩, true, .Method "<EOF>"⟩, (⟨"HT".data, ⟨9, ⟨2, 4⟩⟩⟩ : Reader)) ∧
    method ⟨"GET".data ++ [' '], ⟨0, ⟨1, 1⟩⟩⟩ =
      (.ok .Get, ⟨"GET".data ++ [' '], ⟨3, ⟨1, 4⟩⟩⟩) ∧
    method (Reader.new "xyz uvw") =
      (.error ⟨⟨1, 1⟩, false, .Method "xyz"⟩, Reader.new "xyz uvw") :=
  ⟨method_c3.1 ⟨"HT".data, ⟨9, ⟨2, 4⟩⟩⟩ rfl,
   method_c3.2.2.1 "GET" .Get [' '] (by decide)
     (fun c h => by simp at h; rw [← h]; exact ⟨by decide, rfl⟩),
   method_c3.2.2.2.1 (Reader.new "xyz uvw") (by decide) rfl (by decide)⟩

/-- Claim C4: the version parser accepts `HTTP/1.0`, `HTTP/1.1`, `HTTP/2`,
`HTTP/*` (tried in that order after the literal `HTTP` and a peeked `/`),
each mapping to its distinct version value, and bare `HTTP` followed by a
space maps to the unconstrained `VersionAny`; `HTTP/1.` fails fatally, and
any following character other than `/` and space fails fatally at the
rule's start position. -/
theorem version_c4 :
    (version (Reader.new "HTTP/1.0") =
      (.ok ⟨.Version1, ⟨⟨1, 1⟩, ⟨1, 9⟩⟩⟩,
        (⟨"HTTP/1.0".data, ⟨8, ⟨1, 9⟩⟩⟩ : Reader))) ∧
    (version (Reader.new "HTTP/1.1") =
      (.ok ⟨.Version11, ⟨⟨1, 1⟩, ⟨1, 9⟩⟩⟩,
        (⟨"HTTP/1.1".data, ⟨8, ⟨1, 9⟩⟩⟩ : Reader))) ∧
    (version (Reader.new "HTTP/2") =
      (.ok ⟨.Version2, ⟨⟨1, 1⟩, ⟨1, 7⟩⟩⟩,
        (⟨"HTTP/2".data, ⟨6, ⟨1, 7⟩⟩⟩ : Reader))) ∧
    (version (Reader.new "HTTP/*") =
      (.ok ⟨.VersionAnyLegacy, ⟨⟨1, 1⟩, ⟨1, 7⟩⟩⟩,
        (⟨"HTTP/*".data, ⟨6, ⟨1, 7⟩⟩⟩ : Reader))) ∧
    (version (Reader.new "HTTP 200") =
      (.ok ⟨.VersionAny, ⟨⟨1, 1⟩, ⟨1, 5⟩⟩⟩,
        (⟨"HTTP 200".data, ⟨4, ⟨1, 5⟩⟩⟩ : Reader))) ∧
    (version (Reader.new "HTTP/1.") =
      (.error ⟨⟨1, 1⟩, false, .Version⟩,
        (⟨"HTTP/1.".data, ⟨4, ⟨1, 5⟩⟩⟩ : Reader))) ∧
    ([VersionValue.Version1, .Version11, .Version2, .VersionAnyLegacy,
      .VersionAny].Nodup) ∧
    (∀ (r r₁ : Reader) (c : Char), try_literal "HTTP" r = .ok r₁ →
      r₁.peek = some c → ¬ c = '/' → ¬ c = ' ' →
      version r = (.error ⟨r.state.pos, false, .Version⟩, r₁)) := by
  refine ⟨by rfl, by rfl, by rfl, by rfl, by rfl, by rfl, by decide, ?_⟩
  intro r r₁ c h₁ h₂ h₃ h₄
  simp only [version, h₁, h₂, if_neg h₃, if_neg h₄]

/-- Witness for C4: a character that is neither `/` nor a space after
`HTTP` is a fatal version error at the start position. -/
theorem version_c4_witness :
    version (Reader.new "HTTPx") =
      (.error ⟨⟨1, 1⟩, false, .Version⟩,
        (⟨"HTTPx".data, ⟨4, ⟨1, 5⟩⟩⟩ : Reader)) :=
  version_c4.2.2.2.2.2.2.2 (Reader.new "HTTPx")
    ⟨"HTTPx".data, ⟨4, ⟨1, 5⟩⟩⟩ 'x' rfl rfl (by decide) (by decide)

/-- The duplicate-section walk passes when the names seen so far and the
section names are jointly distinct. -/
theorem check_dup_of_nodup (sections : List Section) (seen : List String)
    (h : (seen ++ sections.map Section.name).Nodup) :
    check_duplicate_sections sections seen = none := by
  induction sections generalizing seen with
  | nil => rfl
  | cons s rest ih =>
      simp only [List.map_cons] at h
      have hnot : s.name ∉ seen := by
        intro hmem
        rw [List.nodup_append] at h
        exact h.2.2 hmem (by simp)
      rw [check_duplicate_sections, if_neg (by simpa using hnot)]
      apply ih
      simpa [List.append_assoc] using h

/-- The duplicate-section walk stops at the first section whose name was
already seen, reporting that section's start position fatally. -/
theorem check_dup_found (pre : List Section) (s : Section)
    (post : List Section) (seen : List String)
    (hpre : (seen ++ pre.map Section.name).Nodup)
    (hmem : s.name ∈ seen ++ pre.map Section.name) :
    check_duplicate_sections (pre ++ s :: post) seen =
      some ⟨s.source_info.start, false, .DuplicateSection⟩ := by
  induction pre generalizing seen with
  | nil =>
      simp only [List.map_nil, List.append_nil] at hmem
      rw [List.nil_append, check_duplicate_sections,
        if_pos (by simpa using hmem)]
  | cons t rest ih =>
      simp only [List.map_cons] at hpre hmem
      have hnot : t.name ∉ seen := by
        intro hmem'
        rw [List.nodup_append] at hpre
        exact hpre.2.2 hmem' (by simp)
      rw [List.cons_append, check_duplicate_sections,
        if_neg (by simpa using hnot)]
      apply ih
      · simpa [List.append_assoc] using hpre
      · simpa [List.append_assoc] using hmem

/-- Claim C2: the duplicate-section check of one request/response walks the
collected sections in order and, the first time a name repeats, fails
fatally with a `DuplicateSection` error at the start position of the second
(offending) occurrence; when all section names are distinct the check
passes and the surrounding parse proceeds unchanged. -/
theorem duplicate_sections_c2 :
    (∀ sections : List Section, (sections.map Section.name).Nodup →
      check_duplicate_sections sections [] = none) ∧
    (∀ (pre : List Section) (s : Section) (post : List Section),
      (pre.map Section.name).Nodup → s.name ∈ pre.map Section.name →
      check_duplicate_sections (pre ++ s :: post) [] =
        some ⟨s.source_info.start, false, .DuplicateSection⟩) := by
  constructor
  · intro sections h
    exact check_dup_of_nodup sections [] (by simpa using h)
  · intro pre s post h hmem
    exact check_dup_found pre s post [] (by simpa using h) (by simpa using hmem)

/-- Witness for C2: two sections named `Asserts`; the error carries the
second occurrence's start position, line 4. -/
theorem duplicate_sections_c2_witness :
    check_duplicate_sections
        [⟨"Asserts", ⟨⟨2, 1⟩, ⟨3, 1⟩⟩⟩, ⟨"Asserts", ⟨⟨4, 1⟩, ⟨5, 1⟩⟩⟩] [] =
      some ⟨⟨4, 1⟩, false, .DuplicateSection⟩ :=
  duplicate_sections_c2.2 [⟨"Asserts", ⟨⟨2, 1⟩, ⟨3, 1⟩⟩⟩]
    ⟨"Asserts", ⟨⟨4, 1⟩, ⟨5, 1⟩⟩⟩ [] (by simp) (by simp)

end Hurl
